import Mathlib

/-!
Shallow embedding of the guest entitlement and photo-lifecycle logic of the
wedding photo-sharing application (ten-moments-shared).

Strings manipulated by the client (captions, event codes, file paths) are
modelled as `List Char`; JavaScript `trim` / `toUpperCase` (on the ASCII
range actually used by event codes) are modelled explicitly below.

The guest / photo rows mirror the columns created by the SQL migrations;
the client operations mirror `handleUpload` (PhotoUpload.tsx),
`handleDeletePhoto` and `handleSaveCaption` (PhotoSwipeFeed), and the join
lookup of JoinWedding.  Each fallible backend call is represented by a
Boolean outcome parameter, so a single Lean function covers every
success/failure path of the corresponding source function.
-/

namespace TenMoments

/-- Model of JavaScript whitespace as far as event codes and captions are
concerned (space, tab, newline, carriage return). -/
def isJsWhitespace (c : Char) : Bool :=
  c == ' ' || c == '\t' || c == '\n' || c == '\r'

/-- JavaScript `String.prototype.trim`: remove whitespace from both ends. -/
def jsTrim (s : List Char) : List Char :=
  ((s.dropWhile isJsWhitespace).reverse.dropWhile isJsWhitespace).reverse

/-- JavaScript `toUpperCase` on a single character, restricted to the ASCII
range (all characters produced by `generateEventCode` are ASCII). -/
def jsUpChar (c : Char) : Char :=
  if 'a' ≤ c ∧ c ≤ 'z' then Char.ofNat (c.toNat - 32) else c

/-- JavaScript `String.prototype.toUpperCase` (ASCII model). -/
def jsToUpper (s : List Char) : List Char := s.map jsUpChar

/-! ## Data model (from the SQL migrations) -/

/-- A row of `public.guests`:
`photos_remaining INTEGER NOT NULL DEFAULT 10` (later migration raises the
default to 20), `has_unlocked_feed BOOLEAN NOT NULL DEFAULT false`,
`guest_name TEXT`.  `id` is the row key (an anonymous-auth principal id in
later revisions). -/
structure GuestRow where
  id : Nat
  guest_name : Option (List Char)
  photos_remaining : Int
  has_unlocked_feed : Bool
deriving DecidableEq, Repr

/-- A row of `public.photos`: `id`, `guest_id`, `image_url` (a storage
path), `guest_name`, and the `caption TEXT` column added by the
`20260122011005` migration. -/
structure PhotoRow where
  pid : Nat
  guest_id : Nat
  image_url : List Char
  guest_name : Option (List Char)
  caption : Option (List Char)
deriving DecidableEq, Repr

/-- The state relevant to a single guest: their `guests` row, the photos of
the event, and the set of storage object paths in the `wedding-photos`
bucket. -/
structure AppState where
  guest : GuestRow
  photos : List PhotoRow
  storage : List (List Char)
deriving DecidableEq, Repr

/-- The `photos_caption_length` check constraint of migration
`20260122011005`:
`CHECK (caption IS NULL OR (char_length(caption) >= 1 AND char_length(caption) <= 150))`. -/
def photos_caption_length (caption : Option (List Char)) : Bool :=
  match caption with
  | none => true
  | some c => decide (1 ≤ c.length) && decide (c.length ≤ 150)

/-- `MAX_CAPTION_LENGTH = 150` in PhotoUpload.tsx and PhotoSwipeFeed. -/
def MAX_CAPTION_LENGTH : Nat := 150

/-- The caption `Textarea` `onChange` handlers only accept the new value
when `value.length <= MAX_CAPTION_LENGTH`, so any submitted caption input
satisfies this guard. -/
def captionInputAllowed (s : List Char) : Bool :=
  decide (s.length ≤ MAX_CAPTION_LENGTH)

/-- Caption normalisation used by both `handleUpload` and
`handleSaveCaption`:
`trimmedCaption.length > 0 ? trimmedCaption : null`. -/
def normCaption (input : List Char) : Option (List Char) :=
  let trimmedCaption := jsTrim input
  if 0 < trimmedCaption.length then some trimmedCaption else none

/-! ## Upload (`handleUpload`, PhotoUpload.tsx lines 276-333) -/

/-- Which backend call of `handleUpload` fails, if any: the storage upload
(`supabase.storage.from("wedding-photos").upload`), the photo insert
(`supabase.from("photos").insert`), or the guest-row update
(`supabase.from("guests").update`). -/
inductive UploadOutcome
  | storageFail
  | insertFail
  | updateFail
  | ok
deriving DecidableEq, Repr

/-- `handleUpload`: upload to storage, insert the photo row (with the
normalised caption and the guest's name), then update the guest row with
`photos_remaining: photosRemaining - 1, has_unlocked_feed: true`.
Each `throw` aborts the remaining steps, leaving earlier effects in
place. -/
def handleUpload (st : AppState) (fileName captionInput : List Char)
    (pid : Nat) (out : UploadOutcome) : AppState :=
  match out with
  | .storageFail => st
  | .insertFail => { st with storage := fileName :: st.storage }
  | .updateFail =>
    { st with
      storage := fileName :: st.storage
      photos := st.photos ++
        [⟨pid, st.guest.id, fileName, st.guest.guest_name, normCaption captionInput⟩] }
  | .ok =>
    { st with
      storage := fileName :: st.storage
      photos := st.photos ++
        [⟨pid, st.guest.id, fileName, st.guest.guest_name, normCaption captionInput⟩]
      guest :=
        { st.guest with
          photos_remaining := st.guest.photos_remaining - 1
          has_unlocked_feed := true } }

/-- The capture button of Guest.tsx is rendered with
`disabled={guestData.photos_remaining === 0}` (locked state); the unlocked
state only shows the button when `photos_remaining > 0`.  This is the guard
under which `handleUpload` is reachable. -/
def captureEnabled (g : GuestRow) : Bool :=
  decide (g.photos_remaining ≠ 0)

/-! ## Caption edit (`handleSaveCaption`, PhotoSwipeFeed lines 239-265) -/

/-- `handleSaveCaption`: `update({ caption: ... }).eq("id", editingPhotoId)`.
Row-level security ("Guests can update own photos",
`auth.uid() = guest_id`) restricts the update to the guest's own row.
On error nothing changes (only a toast is shown). -/
def handleSaveCaption (st : AppState) (pid : Nat) (editCaption : List Char)
    (ok : Bool) : AppState :=
  if ok then
    { st with
      photos := st.photos.map fun p =>
        if p.pid = pid ∧ p.guest_id = st.guest.id then
          { p with caption := normCaption editCaption }
        else p }
  else st

/-! ## Delete (`handleDeletePhoto`, PhotoSwipeFeed lines 267-329) -/

/-- Outcomes of the four backend calls issued by `handleDeletePhoto`:
the storage `remove`, the `photos` row delete, the read of the guest's
`photos_remaining`, and the guest-row update (whose error the code
ignores). -/
structure DeleteOutcome where
  storageOk : Bool
  dbOk : Bool
  fetchOk : Bool
  updateOk : Bool
deriving DecidableEq, Repr

/-- `handleDeletePhoto`: look the photo up in the loaded list; remove its
storage object (a failure here is only logged); delete the `photos` row
(row-level security "Guests can delete own photos" restricts the delete to
`auth.uid() = guest_id`); a failure throws.  Then re-read
`photos_remaining` and, if the read succeeded, write
`Math.min(photos_remaining + 1, 10)` back.  The returned Boolean is
whether the success toast ("Photo deleted / Your photo credit has been
restored.") is shown. -/
def handleDeletePhoto (st : AppState) (pid : Nat) (o : DeleteOutcome) :
    AppState × Bool :=
  match st.photos.find? (fun p => decide (p.pid = pid)) with
  | none => (st, false)
  | some photoToDelete =>
    let storage1 :=
      if o.storageOk then
        st.storage.filter (fun q => decide (q ≠ photoToDelete.image_url))
      else st.storage
    if o.dbOk then
      let photos1 := st.photos.filter
        (fun p => decide (¬(p.pid = pid ∧ p.guest_id = st.guest.id)))
      let guest1 :=
        if o.fetchOk ∧ o.updateOk then
          { st.guest with
            photos_remaining := min (st.guest.photos_remaining + 1) 10 }
        else st.guest
      ({ guest := guest1, photos := photos1, storage := storage1 }, true)
    else
      ({ st with storage := storage1 }, false)

/-! ## Join (`handleJoin`, JoinWedding) and event codes -/

/-- A row of `public.wedding_events` (the fields relevant to joining). -/
structure EventRow where
  eid : Nat
  event_code : List Char
deriving DecidableEq, Repr

/-- The normalisation the join lookup applies to the entered code:
`eventCode.toUpperCase().trim()`. -/
def normalizeJoinCode (s : List Char) : List Char :=
  jsTrim (jsToUpper s)

/-- `handleJoin`'s event lookup:
`.eq("event_code", eventCode.toUpperCase().trim()).maybeSingle()`. -/
def handleJoinLookup (events : List EventRow) (input : List Char) :
    Option EventRow :=
  events.find? (fun e => decide (e.event_code = normalizeJoinCode input))

/-- `generateEventCode` (Index.tsx): the first three characters of each
name, uppercased, then a dash and an uppercased random base-36 suffix. -/
def generateEventCode (coupleName partnerName random : List Char) :
    List Char :=
  jsToUpper (coupleName.take 3 ++ partnerName.take 3) ++ '-' :: jsToUpper random

/-- Joining creates a guest row with the column defaults:
`photos_remaining DEFAULT q` (10 in the initial migration, raised to 20 by
migration `20260123003258`) and `has_unlocked_feed DEFAULT false`;
no photos and no storage objects belong to the guest yet. -/
def joinState (gid : Nat) (name : Option (List Char)) (q : Int) : AppState :=
  { guest :=
      { id := gid, guest_name := name, photos_remaining := q,
        has_unlocked_feed := false }
    photos := []
    storage := [] }

/-- `photos_remaining INTEGER NOT NULL DEFAULT 10` (initial migration). -/
def defaultQuotaOriginal : Int := 10

/-- `ALTER COLUMN photos_remaining SET DEFAULT 20` (migration
`20260123003258`). -/
def defaultQuotaCurrent : Int := 20

/-! ## Event traces -/

/-- One user-level operation of the guest flow, together with the outcome
of its backend calls. -/
inductive Evt
  | upload (fileName captionInput : List Char) (pid : Nat) (out : UploadOutcome)
  | deletePhoto (pid : Nat) (o : DeleteOutcome)
  | editCaption (pid : Nat) (captionInput : List Char) (ok : Bool)
deriving DecidableEq, Repr

/-- The state transition performed by one operation. -/
def step (st : AppState) : Evt → AppState
  | .upload fn cap pid out => handleUpload st fn cap pid out
  | .deletePhoto pid o => (handleDeletePhoto st pid o).1
  | .editCaption pid cap ok => handleSaveCaption st pid cap ok

/-- Run a trace of operations. -/
def runState (st : AppState) : List Evt → AppState
  | [] => st
  | e :: tr => runState (step st e) tr

/-- UI reachability guard of each operation: an upload requires the capture
button to be enabled (and the database assigns a fresh primary key
`id UUID DEFAULT gen_random_uuid()` to the new photo); the delete button is
rendered only on a photo of the current guest
(`isOwner = currentGuestId && photo.guest_id === currentGuestId`). -/
def evtAllowed (st : AppState) : Evt → Bool
  | .upload _ _ pid _ =>
    captureEnabled st.guest && st.photos.all (fun p => decide (p.pid ≠ pid))
  | .deletePhoto pid _ =>
    st.photos.any (fun p => decide (p.pid = pid ∧ p.guest_id = st.guest.id))
  | .editCaption _ _ _ => true

/-- A trace in which every operation is issued from a state where its UI
guard holds. -/
def validTrace : AppState → List Evt → Bool
  | _, [] => true
  | st, e :: tr => evtAllowed st e && validTrace (step st e) tr

/-- A fully successful upload (all three backend calls succeed; only then
does the code show "Moment captured!"). -/
def okUpload : Evt → Bool
  | .upload _ _ _ .ok => true
  | _ => false

/-- A fully successful delete (every backend call of `handleDeletePhoto`
succeeds). -/
def okDelete : Evt → Bool
  | .deletePhoto _ o => o.storageOk && o.dbOk && o.fetchOk && o.updateOk
  | _ => false

/-- A trace consisting only of successful uploads and deletes. -/
def allOk (tr : List Evt) : Bool :=
  tr.all (fun e => okUpload e || okDelete e)

/-- Number of successful uploads in a trace. -/
def nUploads (tr : List Evt) : Nat := tr.countP okUpload

/-- Number of successful deletes in a trace. -/
def nDeletes (tr : List Evt) : Nat := tr.countP okDelete

/-! ## Helper lemmas -/

lemma dropWhile_length_le (p : α → Bool) (l : List α) :
    (l.dropWhile p).length ≤ l.length :=
  (List.dropWhile_sublist p).length_le

lemma jsTrim_length_le (s : List Char) : (jsTrim s).length ≤ s.length := by
  unfold jsTrim
  calc (((s.dropWhile isJsWhitespace).reverse.dropWhile
          isJsWhitespace).reverse).length
      = ((s.dropWhile isJsWhitespace).reverse.dropWhile
          isJsWhitespace).length := by rw [List.length_reverse]
    _ ≤ (s.dropWhile isJsWhitespace).reverse.length :=
        dropWhile_length_le _ _
    _ = (s.dropWhile isJsWhitespace).length := by rw [List.length_reverse]
    _ ≤ s.length := dropWhile_length_le _ _

lemma dropWhile_eq_self_of_length_eq {p : α → Bool} {l : List α}
    (h : (l.dropWhile p).length = l.length) : l.dropWhile p = l := by
  have hsplit := List.takeWhile_append_dropWhile p (l := l)
  have hlen : (l.takeWhile p).length + (l.dropWhile p).length = l.length := by
    conv_rhs => rw [← hsplit]
    rw [List.length_append]
  have htake : l.takeWhile p = [] := by
    have : (l.takeWhile p).length = 0 := by omega
    exact List.length_eq_zero.mp this
  calc l.dropWhile p = l.takeWhile p ++ l.dropWhile p := by
        rw [htake]; simp
    _ = l := hsplit

lemma trim_invariant_parts {c : List Char} (h : jsTrim c = c) :
    c.dropWhile isJsWhitespace = c ∧
    c.reverse.dropWhile isJsWhitespace = c.reverse := by
  have h1 : (c.dropWhile isJsWhitespace).length ≤ c.length :=
    dropWhile_length_le _ _
  have h2 : ((c.dropWhile isJsWhitespace).reverse.dropWhile
      isJsWhitespace).length ≤ (c.dropWhile isJsWhitespace).length := by
    have := dropWhile_length_le isJsWhitespace
      (c.dropWhile isJsWhitespace).reverse
    simpa using this
  have h3 : (jsTrim c).length = c.length := by rw [h]
  have h4 : (jsTrim c).length = ((c.dropWhile isJsWhitespace).reverse.dropWhile
      isJsWhitespace).length := by
    unfold jsTrim; rw [List.length_reverse]
  have hfrontlen : (c.dropWhile isJsWhitespace).length = c.length := by omega
  have hfront : c.dropWhile isJsWhitespace = c :=
    dropWhile_eq_self_of_length_eq hfrontlen
  refine ⟨hfront, ?_⟩
  have hbacklen : (c.reverse.dropWhile isJsWhitespace).length
      = c.reverse.length := by
    rw [List.length_reverse]
    have : (c.dropWhile isJsWhitespace).reverse = c.reverse := by rw [hfront]
    rw [← this]
    omega
  exact dropWhile_eq_self_of_length_eq hbacklen

lemma dropWhile_append_of_self {p : α → Bool} {l1 l2 : List α}
    (h : l1.dropWhile p = l1) (hne : l1 ≠ []) :
    (l1 ++ l2).dropWhile p = l1 ++ l2 := by
  cases l1 with
  | nil => exact absurd rfl hne
  | cons a t =>
    have hpa : p a = false := by
      by_contra hpa
      have hpa' : p a = true := by
        cases hval : p a with
        | false => exact absurd hval hpa
        | true => rfl
      have := List.dropWhile_cons_of_pos (l := t) hpa'
      rw [this] at h
      have hle := dropWhile_length_le p t
      have : (t.dropWhile p).length = t.length + 1 := by
        rw [h]; simp
      omega
    have : ¬ (p a = true) := by simp [hpa]
    simp [List.cons_append, List.dropWhile_cons_of_neg this]

lemma jsTrim_sandwich {ws1 ws2 c : List Char}
    (h1 : ∀ x ∈ ws1, isJsWhitespace x = true)
    (h2 : ∀ x ∈ ws2, isJsWhitespace x = true)
    (hc : jsTrim c = c) :
    jsTrim (ws1 ++ c ++ ws2) = c := by
  obtain ⟨hcf, hcb⟩ := trim_invariant_parts hc
  by_cases hnil : c = []
  · subst hnil
    unfold jsTrim
    rw [List.append_nil, List.dropWhile_append_of_pos h1]
    have hws2 : ws2.dropWhile isJsWhitespace = [] := by
      induction ws2 with
      | nil => rfl
      | cons a t ih =>
        rw [List.dropWhile_cons_of_pos (h2 a (List.mem_cons_self a t))]
        exact ih fun x hx => h2 x (List.mem_cons_of_mem a hx)
    rw [hws2]
    rfl
  · unfold jsTrim
    rw [List.append_assoc, List.dropWhile_append_of_pos h1,
      dropWhile_append_of_self hcf hnil, List.reverse_append,
      List.dropWhile_append_of_pos (by
        intro x hx
        rw [List.mem_reverse] at hx
        exact h2 x hx), hcb, List.reverse_reverse]

lemma filter_remove_length (pid gid : Nat) :
    ∀ l : List PhotoRow,
      (l.map PhotoRow.pid).Nodup →
      (∃ p ∈ l, p.pid = pid ∧ p.guest_id = gid) →
      (l.filter fun q =>
        decide (¬(q.pid = pid ∧ q.guest_id = gid))).length + 1 = l.length := by
  intro l
  induction l with
  | nil => rintro _ ⟨p, hp, _⟩; exact absurd hp (List.not_mem_nil p)
  | cons a t ih =>
    intro hnd hex
    rw [List.map_cons, List.nodup_cons] at hnd
    obtain ⟨p, hp, hpid, hgid⟩ := hex
    rcases List.mem_cons.mp hp with rfl | hpt
    · rw [List.filter_cons_of_neg (by simp [hpid, hgid])]
      have hkeep : t.filter (fun q =>
          decide (¬(q.pid = pid ∧ q.guest_id = gid))) = t := by
        rw [List.filter_eq_self]
        intro q hq
        have : q.pid ≠ pid := by
          intro hqp
          have hmem : q.pid ∈ List.map PhotoRow.pid t :=
            List.mem_map_of_mem PhotoRow.pid hq
          rw [hqp] at hmem
          rw [hpid] at hnd
          exact hnd.1 hmem
        simp [this]
      rw [hkeep]
      simp
    · have hapid : a.pid ≠ pid := by
        intro hap
        have hmem : p.pid ∈ List.map PhotoRow.pid t :=
          List.mem_map_of_mem PhotoRow.pid hpt
        rw [hpid, ← hap] at hmem
        exact hnd.1 hmem
      rw [List.filter_cons_of_pos (by simp [hapid])]
      have := ih hnd.2 ⟨p, hpt, hpid, hgid⟩
      simp only [List.length_cons]
      omega

lemma delete_guest_cases (st : AppState) (pid : Nat) (o : DeleteOutcome) :
    (handleDeletePhoto st pid o).1.guest = st.guest ∨
    (handleDeletePhoto st pid o).1.guest =
      { st.guest with
        photos_remaining := min (st.guest.photos_remaining + 1) 10 } := by
  unfold handleDeletePhoto
  cases hf : st.photos.find? (fun p => decide (p.pid = pid)) with
  | none => left; rfl
  | some q =>
    by_cases hdb : o.dbOk
    · by_cases hfu : o.fetchOk ∧ o.updateOk
      · right; simp [hdb, hfu]
      · left; simp [hdb, hfu]
    · left; simp [hdb]

lemma step_guest_flag_mono (st : AppState) (e : Evt)
    (h : st.guest.has_unlocked_feed = true) :
    (step st e).guest.has_unlocked_feed = true := by
  cases e with
  | upload fn cap pid out =>
    cases out <;> simp [step, handleUpload, h]
  | deletePhoto pid o =>
    rcases delete_guest_cases st pid o with hg | hg <;>
      simp [step] at hg ⊢ <;> rw [hg] <;> exact h
  | editCaption pid cap ok =>
    by_cases hok : ok <;> simp [step, handleSaveCaption, hok, h]

/-! ## Claim theorems -/

/-- Claim C3: the upload operation has precondition `photos_remaining > 0`
(the capture button is enabled exactly on the positive quotas, given the
non-negativity invariant); on success it appends one photo row, decrements
`photos_remaining` by exactly one and sets `has_unlocked_feed`; if the
storage upload or the photo insert fails, neither the photo list nor the
guest row changes (the guest-row update is never issued). -/
theorem upload_effects (st : AppState) (fn cap : List Char) (pid : Nat) :
    (0 ≤ st.guest.photos_remaining →
      (captureEnabled st.guest = true ↔ 0 < st.guest.photos_remaining)) ∧
    (handleUpload st fn cap pid .ok).photos =
      st.photos ++
        [⟨pid, st.guest.id, fn, st.guest.guest_name, normCaption cap⟩] ∧
    (handleUpload st fn cap pid .ok).guest.photos_remaining =
      st.guest.photos_remaining - 1 ∧
    (handleUpload st fn cap pid .ok).guest.has_unlocked_feed = true ∧
    handleUpload st fn cap pid .storageFail = st ∧
    (handleUpload st fn cap pid .insertFail).guest = st.guest ∧
    (handleUpload st fn cap pid .insertFail).photos = st.photos := by
  refine ⟨?_, rfl, rfl, rfl, rfl, rfl, rfl⟩
  intro h
  unfold captureEnabled
  constructor
  · intro hc
    have : st.guest.photos_remaining ≠ 0 := of_decide_eq_true hc
    omega
  · intro hc
    exact decide_eq_true_eq.mpr (by omega)

/-- Witness for C3 at a concrete guest with quota 20. -/
theorem upload_effects_witness :
    captureEnabled (joinState 7 none 20).guest = true :=
  ((upload_effects (joinState 7 none 20) [] [] 1).1 (by decide)).mpr
    (by decide)

/-- Claim C4: a fully successful delete by the photo's owner reports
success, removes the photo row and its storage object, and sets
`photos_remaining` to `min (photos_remaining + 1) 10`, the cap being
hardcoded to 10. -/
theorem delete_effects (st : AppState) (pid : Nat) (p : PhotoRow)
    (hfind : st.photos.find? (fun q => decide (q.pid = pid)) = some p)
    (hown : p.guest_id = st.guest.id) :
    (handleDeletePhoto st pid ⟨true, true, true, true⟩).2 = true ∧
    (handleDeletePhoto st pid
        ⟨true, true, true, true⟩).1.guest.photos_remaining =
      min (st.guest.photos_remaining + 1) 10 ∧
    p ∉ (handleDeletePhoto st pid ⟨true, true, true, true⟩).1.photos ∧
    p.image_url ∉
      (handleDeletePhoto st pid ⟨true, true, true, true⟩).1.storage := by
  have hpid : p.pid = pid := by
    have h1 := List.find?_some hfind
    simpa using h1
  refine ⟨by simp [handleDeletePhoto, hfind], by simp [handleDeletePhoto, hfind],
    ?_, ?_⟩
  · simp only [handleDeletePhoto, hfind]
    simp [List.mem_filter, hpid, hown]
  · simp only [handleDeletePhoto, hfind]
    simp [List.mem_filter]

/-- Witness for C4: a photo of a guest whose quota is 19 (possible under
the raised default of 20); the delete restores only up to 10. -/
theorem delete_effects_witness :
    (handleDeletePhoto
        ⟨⟨5, none, 19, true⟩, [⟨3, 5, ['a'], none, none⟩], [['a']]⟩
        3 ⟨true, true, true, true⟩).1.guest.photos_remaining = 10 :=
  ((delete_effects
      ⟨⟨5, none, 19, true⟩, [⟨3, 5, ['a'], none, none⟩], [['a']]⟩
      3 ⟨3, 5, ['a'], none, none⟩ (by decide) (by decide)).2.1).trans
    (by decide)

/-- Claim C8: when the storage remove fails but the database delete
succeeds, the failure is ignored: the photo row is removed, the operation
still reports success, and the storage object is still present (the
storage list is unchanged). -/
theorem delete_storage_failure_ignored (st : AppState) (pid : Nat)
    (p : PhotoRow) (o : DeleteOutcome)
    (hfind : st.photos.find? (fun q => decide (q.pid = pid)) = some p)
    (hown : p.guest_id = st.guest.id)
    (hs : o.storageOk = false) (hdb : o.dbOk = true) :
    (handleDeletePhoto st pid o).2 = true ∧
    (handleDeletePhoto st pid o).1.storage = st.storage ∧
    p ∉ (handleDeletePhoto st pid o).1.photos := by
  have hpid : p.pid = pid := by
    have h1 := List.find?_some hfind
    simpa using h1
  refine ⟨by simp [handleDeletePhoto, hfind, hs, hdb],
    by simp [handleDeletePhoto, hfind, hs, hdb], ?_⟩
  simp only [handleDeletePhoto, hfind]
  simp [hs, hdb, List.mem_filter, hpid, hown]

/-- Witness for C8. -/
theorem delete_storage_failure_ignored_witness :
    (handleDeletePhoto
        ⟨⟨5, none, 4, true⟩, [⟨3, 5, ['a'], none, none⟩], [['a']]⟩
        3 ⟨false, true, true, true⟩).1.storage = [['a']] :=
  (delete_storage_failure_ignored
      ⟨⟨5, none, 4, true⟩, [⟨3, 5, ['a'], none, none⟩], [['a']]⟩
      3 ⟨3, 5, ['a'], none, none⟩ ⟨false, true, true, true⟩
      (by decide) (by decide) rfl rfl).2.1

/-- Claim C10: when the database delete succeeds but the re-read of the
guest row fails, the quota restore is silently skipped: the photo row is
gone, the guest row (including `photos_remaining`) is unchanged, and the
operation still reports "Photo deleted / Your photo credit has been
restored.". -/
theorem delete_fetch_failure_skips_restore (st : AppState) (pid : Nat)
    (p : PhotoRow) (o : DeleteOutcome)
    (hfind : st.photos.find? (fun q => decide (q.pid = pid)) = some p)
    (hown : p.guest_id = st.guest.id)
    (hdb : o.dbOk = true) (hf : o.fetchOk = false) :
    (handleDeletePhoto st pid o).2 = true ∧
    (handleDeletePhoto st pid o).1.guest = st.guest ∧
    p ∉ (handleDeletePhoto st pid o).1.photos := by
  have hpid : p.pid = pid := by
    have h1 := List.find?_some hfind
    simpa using h1
  refine ⟨by simp [handleDeletePhoto, hfind, hdb, hf],
    by simp [handleDeletePhoto, hfind, hdb, hf], ?_⟩
  simp only [handleDeletePhoto, hfind]
  simp [hdb, hf, List.mem_filter, hpid, hown]

/-- Witness for C10: the quota stays 4 although the delete reports that
the credit was restored. -/
theorem delete_fetch_failure_skips_restore_witness :
    (handleDeletePhoto
        ⟨⟨5, none, 4, true⟩, [⟨3, 5, ['a'], none, none⟩], [['a']]⟩
        3 ⟨true, true, false, true⟩).2 = true ∧
    (handleDeletePhoto
        ⟨⟨5, none, 4, true⟩, [⟨3, 5, ['a'], none, none⟩], [['a']]⟩
        3 ⟨true, true, false, true⟩).1.guest = ⟨5, none, 4, true⟩ := by
  have h := delete_fetch_failure_skips_restore
    ⟨⟨5, none, 4, true⟩, [⟨3, 5, ['a'], none, none⟩], [['a']]⟩
    3 ⟨3, 5, ['a'], none, none⟩ ⟨true, true, false, true⟩
    (by decide) (by decide) rfl rfl
  exact ⟨h.1, h.2.1⟩

/-- Claim C9: a successful caption edit only mutates the caption of the
targeted own photo: the guest row and the storage bucket are untouched,
the photo list keeps its length, every photo keeps its id, owner, path and
name, and photos other than the targeted own one are completely
unchanged. -/
theorem caption_edit_frame (st : AppState) (pid : Nat) (cap : List Char) :
    (handleSaveCaption st pid cap true).guest = st.guest ∧
    (handleSaveCaption st pid cap true).storage = st.storage ∧
    (handleSaveCaption st pid cap true).photos.length = st.photos.length ∧
    (∀ q ∈ (handleSaveCaption st pid cap true).photos,
      ∃ p ∈ st.photos,
        q.pid = p.pid ∧ q.guest_id = p.guest_id ∧
        q.image_url = p.image_url ∧ q.guest_name = p.guest_name ∧
        (¬(p.pid = pid ∧ p.guest_id = st.guest.id) → q = p)) := by
  refine ⟨rfl, rfl, by simp [handleSaveCaption], ?_⟩
  intro q hq
  simp only [handleSaveCaption, if_true, List.mem_map] at hq
  obtain ⟨p, hp, hqp⟩ := hq
  by_cases hc : p.pid = pid ∧ p.guest_id = st.guest.id
  · rw [if_pos hc] at hqp
    exact ⟨p, hp, by rw [← hqp], by rw [← hqp], by rw [← hqp],
      by rw [← hqp], fun hn => absurd hc hn⟩
  · rw [if_neg hc] at hqp
    exact ⟨p, hp, by rw [hqp], by rw [hqp], by rw [hqp], by rw [hqp],
      fun _ => hqp.symm⟩

/-- Witness for C9: editing the caption of a concrete photo leaves the
guest row unchanged. -/
theorem caption_edit_frame_witness :
    (handleSaveCaption
        ⟨⟨5, none, 4, true⟩, [⟨3, 5, ['a'], none, none⟩], []⟩
        3 ("hi".toList) true).guest = ⟨5, none, 4, true⟩ :=
  (caption_edit_frame
    ⟨⟨5, none, 4, true⟩, [⟨3, 5, ['a'], none, none⟩], []⟩
    3 ("hi".toList)).1

/-- Claim C6: a non-null caption whose character count is outside
`[1, 150]` fails the `photos_caption_length` check constraint, and the
client never submits such a caption: any input accepted by the 150-bound
caption box is stored, after trimming and empty-to-null conversion, as a
value the constraint accepts. -/
theorem caption_validation :
    (∀ c : List Char, c.length = 0 ∨ 150 < c.length →
      photos_caption_length (some c) = false) ∧
    (∀ input : List Char, captionInputAllowed input = true →
      photos_caption_length (normCaption input) = true) := by
  constructor
  · intro c hc
    unfold photos_caption_length
    rcases hc with hc | hc <;> simp <;> omega
  · intro input hin
    have hlen : input.length ≤ 150 := by
      have := of_decide_eq_true hin
      simpa [MAX_CAPTION_LENGTH] using this
    unfold normCaption
    by_cases hpos : 0 < (jsTrim input).length
    · rw [if_pos hpos]
      unfold photos_caption_length
      have := jsTrim_length_le input
      simp only [Bool.and_eq_true, decide_eq_true_eq]
      omega
    · rw [if_neg hpos]
      rfl

/-- Witness for C6: an overlong caption is refused by the constraint and a
padded short caption passes after client normalisation. -/
theorem caption_validation_witness :
    photos_caption_length (some (List.replicate 151 'a')) = false ∧
    photos_caption_length (normCaption ("  hi  ".toList)) = true :=
  ⟨caption_validation.1 (List.replicate 151 'a') (by simp),
    caption_validation.2 ("  hi  ".toList) (by decide)⟩

lemma unlocked_run (tr : List Evt) : ∀ st : AppState,
    (runState st tr).guest.has_unlocked_feed =
      (st.guest.has_unlocked_feed || tr.any okUpload) := by
  induction tr with
  | nil => intro st; simp [runState]
  | cons e tr ih =>
    intro st
    rw [runState, ih, List.any_cons]
    cases e with
    | upload fn cap pid out =>
      cases out <;> simp [step, handleUpload, okUpload, Bool.or_assoc]
    | deletePhoto pid o =>
      have hflag : (step st (.deletePhoto pid o)).guest.has_unlocked_feed =
          st.guest.has_unlocked_feed := by
        rcases delete_guest_cases st pid o with hg | hg <;>
          simp [step] at hg ⊢ <;> rw [hg]
      rw [hflag]
      simp [okUpload]
    | editCaption pid cap ok =>
      have hflag : (step st (.editCaption pid cap ok)).guest.has_unlocked_feed =
          st.guest.has_unlocked_feed := by
        by_cases hok : ok <;> simp [step, handleSaveCaption, hok]
      rw [hflag]
      simp [okUpload]

/-- Claim C2: starting from a freshly joined guest, `has_unlocked_feed` is
true after a trace exactly when the trace contains a successful upload,
and every operation (upload, delete, caption edit, successful or not)
preserves the flag once it is true. -/
theorem unlock_iff_successful_upload :
    (∀ (gid : Nat) (name : Option (List Char)) (q : Int) (tr : List Evt),
      (runState (joinState gid name q) tr).guest.has_unlocked_feed = true ↔
        tr.any okUpload = true) ∧
    (∀ (st : AppState) (e : Evt), st.guest.has_unlocked_feed = true →
      (step st e).guest.has_unlocked_feed = true) := by
  refine ⟨?_, step_guest_flag_mono⟩
  intro gid name q tr
  rw [unlocked_run]
  simp [joinState]

/-- Witness for C2: a successful upload unlocks the feed, and a subsequent
delete of the only photo does not relock it. -/
theorem unlock_iff_successful_upload_witness :
    (runState (joinState 0 none 20)
      [Evt.upload ['f'] [] 1 .ok]).guest.has_unlocked_feed = true ∧
    (step ⟨⟨0, none, 20, true⟩, [⟨1, 0, ['f'], none, none⟩], [['f']]⟩
      (Evt.deletePhoto 1 ⟨true, true, true, true⟩)).guest.has_unlocked_feed
      = true :=
  ⟨(unlock_iff_successful_upload.1 0 none 20
      [Evt.upload ['f'] [] 1 .ok]).mpr (by decide),
    unlock_iff_successful_upload.2
      ⟨⟨0, none, 20, true⟩, [⟨1, 0, ['f'], none, none⟩], [['f']]⟩
      (Evt.deletePhoto 1 ⟨true, true, true, true⟩) rfl⟩

lemma quota_nonneg_run (tr : List Evt) : ∀ st : AppState,
    validTrace st tr = true →
    0 ≤ st.guest.photos_remaining →
    0 ≤ (runState st tr).guest.photos_remaining := by
  induction tr with
  | nil => intro st _ h; simpa [runState] using h
  | cons e tr ih =>
    intro st hv h
    rw [validTrace, Bool.and_eq_true] at hv
    rw [runState]
    refine ih (step st e) hv.2 ?_
    cases e with
    | upload fn cap pid out =>
      have hcap : st.guest.photos_remaining ≠ 0 := by
        have := hv.1
        rw [evtAllowed, Bool.and_eq_true] at this
        exact of_decide_eq_true this.1
      cases out <;> simp [step, handleUpload] <;> omega
    | deletePhoto pid o =>
      rcases delete_guest_cases st pid o with hg | hg <;>
        simp [step] at hg ⊢ <;> rw [hg]
      · exact h
      · simp only []
        have h1 : (0 : Int) ≤ st.guest.photos_remaining + 1 := by omega
        exact le_min h1 (by omega)
    | editCaption pid cap ok =>
      by_cases hok : ok <;> simp [step, handleSaveCaption, hok] <;> exact h

/-- Claim C5: starting from a join with any non-negative default quota (10
in the original migration, 20 currently), every trace of guarded uploads,
deletes and caption edits — including ones with failing backend calls —
keeps `photos_remaining ≥ 0`. -/
theorem quota_never_negative (gid : Nat) (name : Option (List Char))
    (q : Int) (tr : List Evt)
    (hq : 0 ≤ q)
    (hv : validTrace (joinState gid name q) tr = true) :
    0 ≤ (runState (joinState gid name q) tr).guest.photos_remaining :=
  quota_nonneg_run tr (joinState gid name q) hv hq

/-- Witness for C5: exhausting a quota of 1 and deleting keeps the counter
non-negative. -/
theorem quota_never_negative_witness :
    0 ≤ (runState (joinState 2 none 1)
      [Evt.upload ['f'] [] 1 .ok,
        Evt.deletePhoto 1 ⟨true, true, true, true⟩,
        Evt.editCaption 1 ['h', 'i'] true]).guest.photos_remaining :=
  quota_never_negative 2 none 1
    [Evt.upload ['f'] [] 1 .ok,
      Evt.deletePhoto 1 ⟨true, true, true, true⟩,
      Evt.editCaption 1 ['h', 'i'] true]
    (by decide) (by decide)

lemma quota_exact_run (tr : List Evt) : ∀ st : AppState,
    validTrace st tr = true → allOk tr = true →
    0 ≤ st.guest.photos_remaining →
    st.guest.photos_remaining + (st.photos.length : Int) ≤ 10 →
    (st.photos.map PhotoRow.pid).Nodup →
    (runState st tr).guest.photos_remaining =
      st.guest.photos_remaining - nUploads tr + nDeletes tr := by
  induction tr with
  | nil =>
    intro st _ _ _ _ _
    simp [runState, nUploads, nDeletes]
  | cons e tr ih =>
    intro st hv hak hr hcap hnd
    rw [validTrace, Bool.and_eq_true] at hv
    rw [allOk, List.all_cons, Bool.and_eq_true] at hak
    have hak2 : allOk tr = true := hak.2
    rw [runState]
    cases e with
    | upload fn cap pid out =>
      cases out with
      | ok =>
        have hguard := hv.1
        rw [evtAllowed, Bool.and_eq_true] at hguard
        have hne : st.guest.photos_remaining ≠ 0 :=
          of_decide_eq_true hguard.1
        have hfresh : ∀ p ∈ st.photos, p.pid ≠ pid := by
          intro p hp
          have := List.all_eq_true.mp hguard.2 p hp
          exact of_decide_eq_true this
        have hq' : (step st (.upload fn cap pid .ok)).guest.photos_remaining
            = st.guest.photos_remaining - 1 := rfl
        have hp' : (step st (.upload fn cap pid .ok)).photos =
            st.photos ++
              [⟨pid, st.guest.id, fn, st.guest.guest_name,
                normCaption cap⟩] := rfl
        have hrun := ih (step st (.upload fn cap pid .ok)) hv.2 hak2
          (by rw [hq']; omega)
          (by
            rw [hq', hp']
            simp only [List.length_append, List.length_cons, List.length_nil]
            push_cast
            omega)
          (by
            rw [hp', List.map_append, List.nodup_append]
            refine ⟨hnd, by simp, ?_⟩
            intro a ha hb
            simp only [List.map_cons, List.map_nil, List.mem_singleton] at hb
            rw [List.mem_map] at ha
            obtain ⟨p, hp, rfl⟩ := ha
            exact hfresh p hp hb)
        rw [hrun, hq']
        have hcu : nUploads (Evt.upload fn cap pid .ok :: tr) =
            nUploads tr + 1 :=
          List.countP_cons_of_pos okUpload tr rfl
        have hcd : nDeletes (Evt.upload fn cap pid .ok :: tr) =
            nDeletes tr :=
          List.countP_cons_of_neg okDelete tr (by simp [okDelete])
        rw [hcu, hcd]
        push_cast
        omega
      | storageFail => simp [okUpload, okDelete] at hak
      | insertFail => simp [okUpload, okDelete] at hak
      | updateFail => simp [okUpload, okDelete] at hak
    | deletePhoto pid o =>
      have hok : okDelete (Evt.deletePhoto pid o) = true := by
        have h1 := hak.1
        simp only [okUpload, Bool.false_or] at h1
        exact h1
      rw [okDelete, Bool.and_eq_true, Bool.and_eq_true, Bool.and_eq_true]
        at hok
      obtain ⟨⟨⟨hso, hdb⟩, hfe⟩, hup⟩ := hok
      have hguard := hv.1
      rw [evtAllowed, List.any_eq_true] at hguard
      obtain ⟨p, hp, hpp⟩ := hguard
      have hpp' : p.pid = pid ∧ p.guest_id = st.guest.id :=
        of_decide_eq_true hpp
      have hfind : (st.photos.find? (fun q => decide (q.pid = pid))).isSome :=
        List.find?_isSome.mpr ⟨p, hp, by simp [hpp'.1]⟩
      obtain ⟨q, hq⟩ := Option.isSome_iff_exists.mp hfind
      have hlen : 0 < st.photos.length := List.length_pos_of_mem hp
      have hmin : min (st.guest.photos_remaining + 1) 10 =
          st.guest.photos_remaining + 1 := by
        apply min_eq_left
        omega
      have hq' : (step st (.deletePhoto pid o)).guest.photos_remaining =
          st.guest.photos_remaining + 1 := by
        simp only [step, handleDeletePhoto, hq, hso, hdb, hfe, hup]
        simpa using hmin
      have hp' : (step st (.deletePhoto pid o)).photos =
          st.photos.filter
            (fun r => decide (¬(r.pid = pid ∧ r.guest_id = st.guest.id))) := by
        simp [step, handleDeletePhoto, hq, hso, hdb, hfe, hup]
      have hflen := filter_remove_length pid st.guest.id st.photos hnd
        ⟨p, hp, hpp'⟩
      have hrun := ih (step st (.deletePhoto pid o)) hv.2 hak2
        (by rw [hq']; omega)
        (by
          rw [hq', hp']
          have : (st.photos.filter (fun r =>
              decide (¬(r.pid = pid ∧ r.guest_id = st.guest.id)))).length + 1
              = st.photos.length := hflen
          omega)
        (by
          rw [hp']
          exact hnd.sublist ((List.filter_sublist st.photos).map PhotoRow.pid))
      rw [hrun, hq']
      have hcu : nUploads (Evt.deletePhoto pid o :: tr) = nUploads tr :=
        List.countP_cons_of_neg okUpload tr (by simp [okUpload])
      have hcd : nDeletes (Evt.deletePhoto pid o :: tr) = nDeletes tr + 1 :=
        List.countP_cons_of_pos okDelete tr
          (by simp [okDelete, hso, hdb, hfe, hup])
      rw [hcu, hcd]
      push_cast
      omega
    | editCaption pid cap ok =>
      simp [okUpload, okDelete] at hak

/-- Claim C1 (amended): for an initial quota of at most 10 — which holds
for the original default of 10 but not the current default of 20 — after
any guarded trace of N successful uploads and M successful deletes of the
guest's own photos, `photos_remaining` equals `initial_quota - N + M`:
every delete restores a full unit, because the quota can never reach the
hardcoded cap of 10 while a deletable photo exists.  The claimed formula
`initial_quota - N + min(M, 10)` is refuted by
`quota_formula_counterexample`. -/
theorem quota_after_uploads_and_deletes (gid : Nat)
    (name : Option (List Char)) (q : Int) (tr : List Evt)
    (hq0 : 0 ≤ q) (hq10 : q ≤ 10)
    (hv : validTrace (joinState gid name q) tr = true)
    (hok : allOk tr = true) :
    (runState (joinState gid name q) tr).guest.photos_remaining =
      q - nUploads tr + nDeletes tr := by
  have := quota_exact_run tr (joinState gid name q) hv hok
    (by simpa [joinState] using hq0)
    (by simpa [joinState] using hq10)
    (by simp [joinState])
  simpa [joinState] using this

/-- Witness for C1 (amended): quota 10, two uploads and one delete leave
`10 - 2 + 1 = 9` photos. -/
theorem quota_after_uploads_and_deletes_witness :
    (runState (joinState 0 none 10)
      [Evt.upload ['f'] [] 1 .ok,
        Evt.deletePhoto 1 ⟨true, true, true, true⟩,
        Evt.upload ['g'] [] 2 .ok,
        Evt.upload ['h'] [] 3 .ok]).guest.photos_remaining = 10 - 3 + 1 :=
  (quota_after_uploads_and_deletes 0 none 10
    [Evt.upload ['f'] [] 1 .ok,
      Evt.deletePhoto 1 ⟨true, true, true, true⟩,
      Evt.upload ['g'] [] 2 .ok,
      Evt.upload ['h'] [] 3 .ok]
    (by decide) (by decide) (by decide) (by decide)).trans (by decide)

/-- Counterexample to claim C1 as stated: with the current default
initial quota of 20, one guarded successful upload followed by one
successful delete of that photo (N = 1 ≥ M = 1) leaves
`photos_remaining = 10`, while the claimed formula gives
`20 - 1 + min(1, 10) = 20`. -/
theorem quota_formula_counterexample :
    validTrace (joinState 0 none 20)
      [Evt.upload ['f'] [] 1 .ok,
        Evt.deletePhoto 1 ⟨true, true, true, true⟩] = true ∧
    nUploads [Evt.upload ['f'] [] 1 .ok,
        Evt.deletePhoto 1 ⟨true, true, true, true⟩] = 1 ∧
    nDeletes [Evt.upload ['f'] [] 1 .ok,
        Evt.deletePhoto 1 ⟨true, true, true, true⟩] = 1 ∧
    (runState (joinState 0 none 20)
      [Evt.upload ['f'] [] 1 .ok,
        Evt.deletePhoto 1 ⟨true, true, true, true⟩]).guest.photos_remaining
      = 10 ∧
    (10 : Int) ≠ 20 - 1 + min 1 10 := by
  refine ⟨by decide, by decide, by decide, by decide, by decide⟩

lemma jsUpChar_whitespace {c : Char} (h : isJsWhitespace c = true) :
    jsUpChar c = c := by
  unfold isJsWhitespace at h
  rw [Bool.or_eq_true, Bool.or_eq_true, Bool.or_eq_true] at h
  rcases h with ((h | h) | h) | h <;>
    rw [beq_iff_eq] at h <;> subst h <;> decide

/-- Claim C7 (amended): the join lookup compares the entered code
uppercased and trimmed against the stored code, so an input that differs
from a stored event code only in ASCII letter case and surrounding
whitespace joins that event — provided the stored code is itself
trim-invariant (no surrounding whitespace).  Codes generated from a couple
name that starts with whitespace violate this proviso and can never be
joined (`join_code_normalization_counterexample`). -/
theorem join_code_normalization (events : List EventRow) (e : EventRow)
    (he : e ∈ events)
    (huniq : ∀ x ∈ events, x.event_code = e.event_code → x = e)
    (htrim : jsTrim e.event_code = e.event_code)
    (ws1 ws2 m : List Char)
    (h1 : ∀ x ∈ ws1, isJsWhitespace x = true)
    (h2 : ∀ x ∈ ws2, isJsWhitespace x = true)
    (hm : jsToUpper m = e.event_code) :
    handleJoinLookup events (ws1 ++ m ++ ws2) = some e := by
  have hm' : m.map jsUpChar = e.event_code := hm
  have hnorm : normalizeJoinCode (ws1 ++ m ++ ws2) = e.event_code := by
    unfold normalizeJoinCode jsToUpper
    rw [List.map_append, List.map_append, hm']
    refine jsTrim_sandwich ?_ ?_ htrim
    · intro x hx
      rw [List.mem_map] at hx
      obtain ⟨y, hy, rfl⟩ := hx
      rw [jsUpChar_whitespace (h1 y hy)]
      exact h1 y hy
    · intro x hx
      rw [List.mem_map] at hx
      obtain ⟨y, hy, rfl⟩ := hx
      rw [jsUpChar_whitespace (h2 y hy)]
      exact h2 y hy
  unfold handleJoinLookup
  simp only [hnorm]
  have hs : (events.find? fun x =>
      decide (x.event_code = e.event_code)).isSome :=
    List.find?_isSome.mpr ⟨e, he, by simp⟩
  obtain ⟨x, hx⟩ := Option.isSome_iff_exists.mp hs
  have hxe : x.event_code = e.event_code := by
    have := List.find?_some hx
    simpa using this
  have : x = e := huniq x (List.mem_of_find?_eq_some hx) hxe
  rw [this] at hx
  exact hx

/-- Witness for C7 (amended): a lower-case, whitespace-padded entry joins
the event whose stored code is `ALBO-AB12`. -/
theorem join_code_normalization_witness :
    handleJoinLookup [⟨1, "ALBO-AB12".toList⟩]
      ("  ".toList ++ "albo-ab12".toList ++ " ".toList) =
      some ⟨1, "ALBO-AB12".toList⟩ :=
  join_code_normalization [⟨1, "ALBO-AB12".toList⟩] ⟨1, "ALBO-AB12".toList⟩
    (by decide) (by decide) (by decide)
    ("  ".toList) (" ".toList) ("albo-ab12".toList)
    (by decide) (by decide) (by decide)

/-- Counterexample to claim C7 as stated: `generateEventCode` applied to a
couple name that starts with a space produces the stored code
`" ALBO-AB12"`, and entering that very code (an input differing from the
valid code only in surrounding whitespace, namely not at all) fails to
join: the trimmed comparison never matches the untrimmed stored value. -/
theorem join_code_normalization_counterexample :
    generateEventCode (" Al".toList) ("Bo".toList) ("ab12".toList) =
      " ALBO-AB12".toList ∧
    handleJoinLookup [⟨1, " ALBO-AB12".toList⟩] (" ALBO-AB12".toList) =
      none := by
  refine ⟨by decide, by decide⟩

end TenMoments
